import Mathlib

/-!
Verification development for the mpc.pytorch trajectory-optimization engine
(files `mpc/mpc.py` and `mpc/util.py`), shallowly embedded over `ℚ`.
Vectors are functions `Fin n → ℚ` (or functions on a sum type for the
state/control concatenation `tau = [x; u]`), matrices are `Matrix` over `ℚ`,
and the batched python loops are modelled per batch element.
-/

namespace MpcSpec

open Matrix

/-! ## Embedding of `mpc/util.py` numeric primitives -/

/-- Embeds `util.bquad x Q = x^T Q x` (a batched quadratic form, per batch element). -/
def bquad {n : Type} [Fintype n] (x : n → ℚ) (Q : Matrix n n ℚ) : ℚ :=
  x ⬝ᵥ Q.mulVec x

/-- Embeds `util.bdot x y` (a batched dot product, per batch element). -/
def bdot {n : Type} [Fintype n] (x y : n → ℚ) : ℚ :=
  x ⬝ᵥ y

/-- Embeds `np.concatenate((xt, ut), 1)`: the concatenation `tau = [x; u]` of a
state vector and a control vector, indexed by the sum type `Fin ns ⊕ Fin nc`. -/
def catxu {ns nc : ℕ} (x : Fin ns → ℚ) (u : Fin nc → ℚ) : (Fin ns ⊕ Fin nc) → ℚ :=
  Sum.elim x u

/-- Embeds `util.get_cost` (QuadCost branch, trajectory `x` supplied), per batch
element.  The source computes, for each `t`,
`obj = 0.5 * bquad(xut - concat(goal_state, goal_ctrl), C[t])`
and sums the per-time objectives; the linear term `c` of the `QuadCost` is
destructured but never used.  `goal_state` and `goal_ctrl` are fields of the
`dynamics` argument. -/
def get_cost {ns nc : ℕ} (T : ℕ)
    (u : ℕ → Fin nc → ℚ)
    (C : ℕ → Matrix (Fin ns ⊕ Fin nc) (Fin ns ⊕ Fin nc) ℚ)
    (c : ℕ → (Fin ns ⊕ Fin nc) → ℚ)
    (goal_state : Fin ns → ℚ) (goal_ctrl : Fin nc → ℚ)
    (x : ℕ → Fin ns → ℚ) : ℚ :=
  ((List.range T).map (fun t =>
    (1 / 2 : ℚ) * bquad (catxu (x t) (u t) - Sum.elim goal_state goal_ctrl) (C t))).sum

/-- Written from the specification text for comparison with `get_cost`: the sum
over `t` of `0.5 * tau_t^T C_t tau_t + c_t^T tau_t` where `tau_t = [x_t; u_t]`. -/
def get_cost_spec {ns nc : ℕ} (T : ℕ)
    (u : ℕ → Fin nc → ℚ)
    (C : ℕ → Matrix (Fin ns ⊕ Fin nc) (Fin ns ⊕ Fin nc) ℚ)
    (c : ℕ → (Fin ns ⊕ Fin nc) → ℚ)
    (x : ℕ → Fin ns → ℚ) : ℚ :=
  ((List.range T).map (fun t =>
    (1 / 2 : ℚ) * bquad (catxu (x t) (u t)) (C t) + bdot (c t) (catxu (x t) (u t)))).sum

/-- A concrete one-step instance separating `get_cost` from the claimed formula:
identity cost matrix, `x_0 = 1`, `u_0 = 0`, zero goal, `c_0 = (1, 0)`. -/
def exC : ℕ → Matrix (Fin 1 ⊕ Fin 1) (Fin 1 ⊕ Fin 1) ℚ := fun _ => 1

/-- The linear cost term of the concrete instance. -/
def exc : ℕ → (Fin 1 ⊕ Fin 1) → ℚ := fun _ => Sum.elim ![1] ![0]

/-- The state trajectory of the concrete instance. -/
def exx : ℕ → Fin 1 → ℚ := fun _ => ![1]

/-- The control trajectory of the concrete instance. -/
def exu : ℕ → Fin 1 → ℚ := fun _ => ![0]

/-- C1, counterexample: on the concrete instance, `util.get_cost` returns `1/2`
while the claimed formula `sum_t 0.5 tau^T C tau + c^T tau` gives `3/2`; the
code subtracts the dynamics goal and drops the linear term `c` entirely. -/
theorem C1_counterexample :
    get_cost 1 exu exC exc ![0] ![0] exx ≠
      get_cost_spec 1 exu exC exc exx := by
  unfold get_cost get_cost_spec bquad bdot catxu exC exc exx exu
  norm_num [Matrix.one_mulVec, Matrix.dotProduct, Fintype.sum_sum_type]

/-- C1 (amended): per batch element, `util.get_cost` with a `QuadCost` returns
the sum over `t` of `0.5 * (tau_t - g)^T C_t (tau_t - g)` where `g` is the
concatenation of the dynamics goal state and goal control; the linear term `c`
is ignored (the value is independent of `c`). -/
theorem C1_get_cost_goal_quadratic {ns nc : ℕ} (T : ℕ)
    (u : ℕ → Fin nc → ℚ)
    (C : ℕ → Matrix (Fin ns ⊕ Fin nc) (Fin ns ⊕ Fin nc) ℚ)
    (c cAlt : ℕ → (Fin ns ⊕ Fin nc) → ℚ)
    (gs : Fin ns → ℚ) (gc : Fin nc → ℚ)
    (x : ℕ → Fin ns → ℚ) :
    get_cost T u C c gs gc x =
      ∑ t ∈ Finset.range T,
        (1 / 2 : ℚ) * ((catxu (x t) (u t) - Sum.elim gs gc) ⬝ᵥ
          (C t).mulVec (catxu (x t) (u t) - Sum.elim gs gc)) ∧
    get_cost T u C c gs gc x = get_cost T u C cAlt gs gc x := by
  constructor
  · induction T with
    | zero => simp [get_cost]
    | succ n ih =>
        rw [get_cost, List.range_succ, List.map_append, List.sum_append,
          Finset.sum_range_succ, ← get_cost, ih]
        simp [bquad]
  · rfl

/-! ## Embedding of `MPC.approximate_cost` (cost quadratization, claim C6) -/

/-- Embeds the linear term built by `MPC.approximate_cost` at each time step:
`grads.append(grad - util.bmv(hessian, tau_t))`, i.e. `grad - H @ tau`. -/
def approx_lin_term {n : Type} [Fintype n]
    (hessian : Matrix n n ℚ) (grad tau : n → ℚ) : n → ℚ :=
  grad - hessian.mulVec tau

/-- The quadratic cost model `0.5 * v^T H v + g^T v` built from the Hessian and
linear term returned by `MPC.approximate_cost`. -/
def quad_model {n : Type} [Fintype n]
    (H : Matrix n n ℚ) (g : n → ℚ) (v : n → ℚ) : ℚ :=
  (1 / 2 : ℚ) * bquad v H + bdot g v

/-- C6: with the linear term `g = grad - H @ tau` returned by
`MPC.approximate_cost`, the quadratic model matches the true cost to first
order at the expansion point `tau`: for every displacement `d`, the model
changes by exactly `grad . d + 0.5 d^T H d`, so its gradient at `tau` is the
true gradient `grad` (for a symmetric Hessian). -/
theorem C6_approximate_cost_centered {n : Type} [Fintype n]
    (H : Matrix n n ℚ) (hH : H.IsSymm) (grad tau d : n → ℚ) :
    quad_model H (approx_lin_term H grad tau) (tau + d) =
      quad_model H (approx_lin_term H grad tau) tau
        + grad ⬝ᵥ d + (1 / 2 : ℚ) * (d ⬝ᵥ H.mulVec d) := by
  have hsym : tau ⬝ᵥ H.mulVec d = d ⬝ᵥ H.mulVec tau := by
    rw [Matrix.dotProduct_mulVec, dotProduct_comm]
    conv_lhs => rw [← hH]
    rw [Matrix.vecMul_transpose]
  simp only [quad_model, approx_lin_term, bquad, bdot, Matrix.mulVec_add,
    dotProduct_add, add_dotProduct, sub_dotProduct, dotProduct_sub]
  rw [hsym, dotProduct_comm (H.mulVec tau) d]
  ring

/-- C6 witness: the first-order expansion identity instantiated at a concrete
symmetric Hessian, gradient, expansion point and displacement. -/
theorem C6_approximate_cost_centered_witness :
    (!![(2 : ℚ), 1; 1, 3]).IsSymm ∧
      quad_model !![(2 : ℚ), 1; 1, 3]
          (approx_lin_term !![(2 : ℚ), 1; 1, 3] ![5, -1] ![1, 2]) (![1, 2] + ![4, 7]) =
        quad_model !![(2 : ℚ), 1; 1, 3]
            (approx_lin_term !![(2 : ℚ), 1; 1, 3] ![5, -1] ![1, 2]) ![1, 2]
          + ![(5 : ℚ), -1] ⬝ᵥ ![4, 7]
          + (1 / 2 : ℚ) * (![(4 : ℚ), 7] ⬝ᵥ (!![(2 : ℚ), 1; 1, 3]).mulVec ![4, 7]) := by
  have hH : (!![(2 : ℚ), 1; 1, 3]).IsSymm := by
    rw [Matrix.IsSymm]
    ext i j
    fin_cases i <;> fin_cases j <;> rfl
  exact ⟨hH, C6_approximate_cost_centered _ hH ![5, -1] ![1, 2] ![4, 7]⟩

/-! ## Embedding of `MPC.linearize_dynamics` (claim C7) -/

/-- Embeds `F = np.concatenate((R, S), 3)` in `MPC.linearize_dynamics`: the
per-time-step dynamics matrix is the column concatenation of the state
Jacobian `R` and the control Jacobian `S`. -/
def lin_F {ns nc : ℕ} (R : Matrix (Fin ns) (Fin ns) ℚ)
    (S : Matrix (Fin ns) (Fin nc) ℚ) : Matrix (Fin ns) (Fin ns ⊕ Fin nc) ℚ :=
  Matrix.fromColumns R S

/-- Embeds `f = new_x - util.bmv(R, x) - util.bmv(S, u)`, the affine offset
built identically in both the `ANALYTIC` branch and the autodiff or
finite-difference branch of `MPC.linearize_dynamics`. -/
def lin_f {ns nc : ℕ} (R : Matrix (Fin ns) (Fin ns) ℚ)
    (S : Matrix (Fin ns) (Fin nc) ℚ) (x : Fin ns → ℚ) (u : Fin nc → ℚ)
    (new_x : Fin ns → ℚ) : Fin ns → ℚ :=
  new_x - R.mulVec x - S.mulVec u

/-- C7: the affine model returned by `MPC.linearize_dynamics` is exact at the
expansion point: `F [x; u] + f = new_x` where `new_x = dynamics(x, u)`, for any
Jacobians `R`, `S` (hence for every gradient strategy, all of which build `f`
by the same formula `new_x - R x - S u`). -/
theorem C7_linearize_dynamics_exact {ns nc : ℕ}
    (R : Matrix (Fin ns) (Fin ns) ℚ) (S : Matrix (Fin ns) (Fin nc) ℚ)
    (x : Fin ns → ℚ) (u : Fin nc → ℚ) (new_x : Fin ns → ℚ) :
    (lin_F R S).mulVec (catxu x u) + lin_f R S x u new_x = new_x := by
  rw [lin_F, lin_f, catxu, Matrix.fromColumns_mulVec_sum_elim]
  abel

/-! ## Embedding of the outer-loop non-improvement counter (claim C2)

The source keeps a single shared counter `n_not_improved`: it is incremented
once per outer iteration (`n_not_improved += 1`) and set back to `0` inside the
per-batch-element loop whenever some element improves its best cost.  An outer
iteration is abstracted by the vector of per-element improvement outcomes
(`flags j = true` iff element `j` improved its best cost by more than
`best_cost_eps` this iteration). -/

/-- Embeds one outer iteration's effect on the shared counter `n_not_improved`
(`mpc.py`: `n_not_improved += 1` followed by `n_not_improved = 0` whenever any
batch element improves). -/
def code_counter_step {k : ℕ} (flags : Fin k → Bool) (n : ℕ) : ℕ :=
  if ∃ j, flags j = true then 0 else n + 1

/-- The shared counter after a sequence of outer iterations, starting from `0`. -/
def code_counter_run {k : ℕ} (hist : List (Fin k → Bool)) : ℕ :=
  hist.foldl (fun n flags => code_counter_step flags n) 0

/-- Modelled from the spec: per-batch-element non-improvement counters, reset
for an element exactly when that element improves, incremented otherwise. -/
def spec_counter_step {k : ℕ} (flags : Fin k → Bool) (cs : Fin k → ℕ) : Fin k → ℕ :=
  fun j => if flags j then 0 else cs j + 1

/-- The per-element counters after a sequence of outer iterations, all starting
from `0`. -/
def spec_counter_run {k : ℕ} (hist : List (Fin k → Bool)) : Fin k → ℕ :=
  hist.foldl (fun cs flags => spec_counter_step flags cs) (fun _ => 0)

/-- Invariant connecting the shared counter with the per-element counters:
exceeding any limit is preserved by folding further iterations. -/
theorem counter_fold_inv {k : ℕ} (hist : List (Fin k → Bool)) :
    ∀ (n : ℕ) (cs : Fin k → ℕ),
      (∀ l : ℕ, n > l ↔ ∀ j, cs j > l) →
      ∀ l : ℕ,
        hist.foldl (fun n flags => code_counter_step flags n) n > l ↔
          ∀ j, hist.foldl (fun cs flags => spec_counter_step flags cs) cs j > l := by
  induction hist with
  | nil => intro n cs h l; exact h l
  | cons flags rest ih =>
      intro n cs h l
      simp only [List.foldl_cons]
      apply ih
      intro l2
      by_cases hf : ∃ j, flags j = true
      · obtain ⟨j0, hj0⟩ := hf
        rw [code_counter_step, if_pos ⟨j0, hj0⟩]
        constructor
        · omega
        · intro hall
          have hj := hall j0
          rw [spec_counter_step, if_pos hj0] at hj
          omega
      · rw [code_counter_step, if_neg hf]
        push_neg at hf
        constructor
        · intro hlt j
          rw [spec_counter_step, if_neg (by simp [hf j])]
          rcases Nat.eq_zero_or_pos l2 with h0 | hpos
          · omega
          · obtain ⟨m, rfl⟩ := Nat.exists_eq_succ_of_ne_zero (Nat.pos_iff_ne_zero.mp hpos)
            have := (h m).mp (by omega) j
            omega
        · intro hall
          rcases Nat.eq_zero_or_pos l2 with h0 | hpos
          · omega
          · obtain ⟨m, rfl⟩ := Nat.exists_eq_succ_of_ne_zero (Nat.pos_iff_ne_zero.mp hpos)
            have hm : ∀ j, cs j > m := by
              intro j
              have hj := hall j
              rw [spec_counter_step, if_neg (by simp [hf j])] at hj
              omega
            have := (h m).mpr hm
            omega

/-- C2: for a nonempty batch and any history of per-element improvement
outcomes, the source's shared non-improvement counter exceeds the configured
limit exactly when every batch element's per-element counter (as described by
the spec) exceeds it; hence the early-termination test
`n_not_improved > not_improved_lim` fires exactly when every batch element's
counter exceeds the limit.  (The other two exit criteria — update norm below
`eps` and the `lqr_iter` budget — appear verbatim in the same `break` test and
the `for` range.) -/
theorem C2_not_improved_equiv {k : ℕ} (hk : 0 < k)
    (hist : List (Fin k → Bool)) (lim : ℕ) :
    code_counter_run hist > lim ↔ ∀ j, spec_counter_run hist j > lim := by
  apply counter_fold_inv
  intro l
  constructor
  · omega
  · intro hall
    have := hall ⟨0, hk⟩
    omega

/-- C2 witness: the equivalence instantiated on a two-element batch and a
concrete two-iteration history. -/
theorem C2_not_improved_equiv_witness :
    0 < 2 ∧
      (code_counter_run [![false, false], ![true, false]] > 0 ↔
        ∀ j, spec_counter_run [![false, false], ![true, false]] j > 0) :=
  ⟨by decide, C2_not_improved_equiv (by decide) [![false, false], ![true, false]] 0⟩

/-! ## Embedding of the outer-loop nominal-trajectory handling (claim C3)

One outer iteration of `MPC.forward` maps the current nominal control `u` to a
candidate `(u_cand, cost)` through `solve_lqr_subproblem` (the trajectory `x`
is recomputed from `u` by `get_traj`, so the control sequence determines the
nominal trajectory).  The iteration is abstracted by an oracle
`lqr : α → α × ℚ` from nominal control to candidate control and cost. -/

/-- Loop state of `MPC.forward`: the control `u` fed to the next iteration and
the per-batch `best` record (`None` before the first iteration). -/
structure OuterState (α : Type) where
  u : α
  best : Option (α × ℚ)

/-- Embeds one outer iteration of `MPC.forward` (per batch element): run the
LQR step on the current nominal `u`, update `best` by the
`costs[j] <= best costs[j] - best_cost_eps` test (first iteration adopts the
candidate unconditionally), and carry the candidate control — not the best
one — into the next iteration. -/
def outer_iter {α : Type} (best_cost_eps : ℚ) (lqr : α → α × ℚ)
    (s : OuterState α) : OuterState α :=
  let cand := lqr s.u
  { u := cand.1,
    best :=
      match s.best with
      | none => some cand
      | some b => if cand.2 ≤ b.2 - best_cost_eps then some cand else some b }

/-- The outer-loop state after `n` iterations from warm start `u0`. -/
def outer_run {α : Type} (best_cost_eps : ℚ) (lqr : α → α × ℚ)
    (u0 : α) : ℕ → OuterState α
  | 0 => { u := u0, best := none }
  | n + 1 => outer_iter best_cost_eps lqr (outer_run best_cost_eps lqr u0 n)

/-- A concrete LQR-step oracle: from nominal `0` it produces candidate `1` with
cost `1`; from any other nominal it produces a strictly worse candidate. -/
def ex_lqr : ℚ → ℚ × ℚ := fun u => (u + 1, if u = 0 then 1 else 10)

/-- C3, counterexample: after two iterations of `ex_lqr` from warm start `0`
(with `best_cost_eps = 0`), the best trajectory found so far is `1` (cost `1`)
but the nominal control fed to the third iteration is the latest — worse —
candidate `2`, not the best one. -/
theorem C3_counterexample :
    (outer_run 0 ex_lqr 0 2).best = some (1, 1) ∧
      (outer_run 0 ex_lqr 0 2).u = 2 ∧
      (outer_run 0 ex_lqr 0 2).u ≠
        ((outer_run 0 ex_lqr 0 2).best.map Prod.fst).getD 0 := by
  refine ⟨?_, ?_, ?_⟩ <;> norm_num [outer_run, outer_iter, ex_lqr]

/-- C3 (amended): in every outer iteration after the first, the nominal control
around which `MPC.forward` re-linearizes is the latest candidate returned by
the previous LQR step; the best-so-far trajectory is only concatenated and
returned after the loop exits. -/
theorem C3_nominal_is_latest_candidate {α : Type} (best_cost_eps : ℚ)
    (lqr : α → α × ℚ) (u0 : α) (i : ℕ) :
    (outer_run best_cost_eps lqr u0 (i + 1)).u =
      (lqr ((outer_run best_cost_eps lqr u0 i).u)).1 := by
  simp [outer_run, outer_iter]

/-! ## Embedding of the best-cost update (claim C5) -/

/-- Embeds the per-batch-element best-cost update of `MPC.forward`
(`if for_out.costs[j] <= best.costs[j] - self.best_cost_eps: best.costs[j] =
for_out.costs[j]`). -/
def best_cost_update {k : ℕ} (best_cost_eps : ℚ) (best cand : Fin k → ℚ) :
    Fin k → ℚ :=
  fun j => if cand j ≤ best j - best_cost_eps then cand j else best j

/-- C5: whenever the configured `best_cost_eps` is nonnegative (the default is
`1e-3`), the stored best cost of every batch element is non-increasing across
an outer iteration. -/
theorem C5_best_cost_monotone {k : ℕ} (best_cost_eps : ℚ)
    (heps : 0 ≤ best_cost_eps) (best cand : Fin k → ℚ) (j : Fin k) :
    best_cost_update best_cost_eps best cand j ≤ best j := by
  rw [best_cost_update]
  split
  · next h => linarith
  · exact le_refl _

/-- C5 witness: the monotonicity instantiated at the default
`best_cost_eps = 1e-3` and a concrete improving candidate. -/
theorem C5_best_cost_monotone_witness :
    (0 : ℚ) ≤ 1 / 1000 ∧
      best_cost_update (1 / 1000) ![5] ![3] 0 ≤ ![(5 : ℚ)] 0 :=
  ⟨by norm_num, C5_best_cost_monotone (1 / 1000) (by norm_num) ![5] ![3] 0⟩

/-! ## Embedding of the post-loop non-convergence policy (claim C4)

After the outer loop, `MPC.forward` runs (literal structure of the source):

    if self.detach_unconverged:
        if max(best.full_du_norm) > self.eps:
            if self.exit_unconverged:
                assert False
            ... detach elements with for_out.full_du_norm >= eps ...

A batch element's trajectory entry is modelled as a pair of its value and a
Boolean `requires_grad` flag; detaching clears the flag and keeps the value.
A `none` result models the `assert False` (whole call fails). -/

/-- Maximum of a nonempty batch vector (python `max(...)`). -/
def fmax {k : ℕ} (v : Fin (k + 1) → ℚ) : ℚ :=
  Finset.univ.sup' Finset.univ_nonempty v

/-- Embeds `x = x*Ix + x.clone().detach()*(1.-Ix)` with
`I = for_out.full_du_norm < self.eps`: entries whose last update norm is below
`eps` keep their gradient flag, the others are detached (value kept). -/
def detach_step {k : ℕ} (eps : ℚ) (last_norms : Fin (k + 1) → ℚ)
    (xs : Fin (k + 1) → ℚ × Bool) : Fin (k + 1) → ℚ × Bool :=
  fun j => if last_norms j < eps then xs j else ((xs j).1, false)

/-- Embeds the post-loop policy block of `MPC.forward`; `none` is the
`assert False` failure, `some` is the returned trajectory. -/
def post_policy {k : ℕ} (detach_unconverged exit_unconverged : Bool) (eps : ℚ)
    (best_norms last_norms : Fin (k + 1) → ℚ)
    (xs : Fin (k + 1) → ℚ × Bool) : Option (Fin (k + 1) → ℚ × Bool) :=
  if detach_unconverged = true then
    if eps < fmax best_norms then
      if exit_unconverged = true then none
      else some (detach_step eps last_norms xs)
    else some xs
  else some xs

/-- C4, counterexample: with `detach_unconverged = False` and
`exit_unconverged = True`, an unconverged batch (update norm `2 > eps = 1`)
does not fail the call — the `exit_unconverged` test is nested inside
`if self.detach_unconverged:`, so non-convergence is silently discarded in
this configuration, contrary to the claim. -/
theorem C4_counterexample :
    (1 : ℚ) < fmax ![2] ∧
      post_policy false true 1 ![2] ![2] ![(5, true)] = some ![(5, true)] := by
  constructor
  · exact (Finset.lt_sup'_iff _).mpr ⟨0, Finset.mem_univ 0, by norm_num⟩
  · rfl

/-- C4 (amended): the non-convergence policy runs only when
`detach_unconverged` is set.  In that case, if some batch element's best update
norm exceeds `eps`, then with `exit_unconverged` the whole call fails, and
otherwise exactly the elements whose last update norm is not below `eps` are
excluded from gradient propagation while all trajectory values are still
returned.  With `detach_unconverged` unset the result is returned unchanged
even when unconverged. -/
theorem C4_policy_characterization {k : ℕ}
    (detach_unconverged exit_unconverged : Bool) (eps : ℚ)
    (best_norms last_norms : Fin (k + 1) → ℚ) (xs : Fin (k + 1) → ℚ × Bool) :
    (detach_unconverged = false →
      post_policy detach_unconverged exit_unconverged eps best_norms last_norms xs
        = some xs) ∧
    (detach_unconverged = true → eps < fmax best_norms → exit_unconverged = true →
      post_policy detach_unconverged exit_unconverged eps best_norms last_norms xs
        = none) ∧
    (detach_unconverged = true → eps < fmax best_norms → exit_unconverged = false →
      post_policy detach_unconverged exit_unconverged eps best_norms last_norms xs
        = some (detach_step eps last_norms xs) ∧
      (∀ j, (detach_step eps last_norms xs j).1 = (xs j).1) ∧
      (∀ j, (detach_step eps last_norms xs j).2 = true ↔
        (last_norms j < eps ∧ (xs j).2 = true))) := by
  refine ⟨?_, ?_, ?_⟩
  · intro hd
    subst hd
    simp [post_policy]
  · intro hd hmax he
    subst hd
    subst he
    simp [post_policy, if_pos hmax]
  · intro hd hmax he
    subst hd
    subst he
    refine ⟨by simp [post_policy, if_pos hmax], ?_, ?_⟩
    · intro j
      rw [detach_step]
      split <;> rfl
    · intro j
      rw [detach_step]
      split
      · next h => simp [h]
      · next h => simp [h]

/-- C4 witness: the characterization applied in the fail-fast case at a
concrete unconverged input. -/
theorem C4_policy_characterization_witness :
    (1 : ℚ) < fmax ![2] ∧
      post_policy true true 1 ![2] ![2] ![((5 : ℚ), true)] = none := by
  have hmax : (1 : ℚ) < fmax ![2] :=
    (Finset.lt_sup'_iff _).mpr ⟨0, Finset.mem_univ 0, by norm_num⟩
  exact ⟨hmax,
    (C4_policy_characterization true true 1 ![2] ![2] ![((5 : ℚ), true)]).2.1
      rfl hmax rfl⟩

/-! ## Embedding of the `MPC.forward` preamble checks (claim C8) -/

/-- The cost argument of `MPC.forward` as seen by the preamble: a `QuadCost`
carrying the tensor ranks (`ndim`) of its `C` and `c` fields, or a
module/function cost. -/
inductive CostRep : Type
  | quad (Cndim cndim : ℕ)
  | nonquad

/-- Embeds the batch-size inference of `MPC.forward`: an explicit `n_batch`
wins; otherwise a `QuadCost` with 4-dimensional `C` supplies `C.shape[1]`;
otherwise the call exits with an error before anything else runs. -/
def infer_n_batch (n_batch : Option ℕ) (cost : CostRep) (Cshape1 : ℕ) :
    Except String ℕ :=
  match n_batch, cost with
  | some b, _ => .ok b
  | none, .quad Cndim _ =>
      if Cndim = 4 then .ok Cshape1
      else .error "MPC Error: Could not infer batch size, pass in as n_batch"
  | none, .nonquad =>
      .error "MPC Error: Could not infer batch size, pass in as n_batch"

/-- Rank of `C` after the broadcasting step (`np.tile` lifts rank 2 and rank 3
to rank 4; other ranks are untouched). -/
def bcastC (ndim : ℕ) : ℕ :=
  if ndim = 2 then 4 else if ndim = 3 then 4 else ndim

/-- Rank of `c` after the broadcasting step (rank 1 and rank 2 are lifted to
rank 3; other ranks are untouched). -/
def bcastc (ndim : ℕ) : ℕ :=
  if ndim = 1 then 3 else if ndim = 2 then 3 else ndim

/-- Embeds the post-broadcast rank check
`if C.ndim != 4 or c.ndim != 3: sys.exit(-1)`. -/
def check_quad_shape (cost : CostRep) : Except String Unit :=
  match cost with
  | .quad Cndim cndim =>
      if bcastC Cndim ≠ 4 ∨ bcastc cndim ≠ 3 then
        .error "MPC Error: Unexpected QuadCost shape."
      else .ok ()
  | .nonquad => .ok ()

/-- The `MPC.forward` preamble: infer the batch size, then broadcast and check
the `QuadCost` ranks; an error result models `sys.exit(-1)`, reached before
any solve step. -/
def forward_preamble (n_batch : Option ℕ) (cost : CostRep) (Cshape1 : ℕ) :
    Except String ℕ :=
  match infer_n_batch n_batch cost Cshape1 with
  | .error e => .error e
  | .ok nb =>
      match check_quad_shape cost with
      | .error e => .error e
      | .ok _ => .ok nb

/-- Decides whether an `Except` result is an error. -/
def exceptIsError {ε α : Type} (e : Except ε α) : Bool :=
  match e with
  | .error _ => true
  | .ok _ => false

/-- C8: the `MPC.forward` preamble fails fatally (with a descriptive message,
before any solve step) when no explicit `n_batch` is given and the cost is not
a `QuadCost` with 4-dimensional `C`, and likewise when the broadcast ranks of
a `QuadCost` are not 4 and 3. -/
theorem C8_preamble_errors (n_batch : Option ℕ) (cost : CostRep) (Cshape1 : ℕ) :
    (n_batch = none → (∀ m, cost ≠ CostRep.quad 4 m) →
      exceptIsError (forward_preamble n_batch cost Cshape1) = true) ∧
    (∀ Cndim cndim, cost = CostRep.quad Cndim cndim →
      (bcastC Cndim ≠ 4 ∨ bcastc cndim ≠ 3) →
      exceptIsError (forward_preamble n_batch cost Cshape1) = true) := by
  constructor
  · intro hnb hnq
    subst hnb
    cases cost with
    | nonquad => rfl
    | quad Cndim cndim =>
        by_cases hC : Cndim = 4
        · exact absurd (by rw [hC]) (hnq cndim)
        · simp [forward_preamble, infer_n_batch, if_neg hC, exceptIsError]
  · intro Cndim cndim hc hbad
    subst hc
    cases n_batch with
    | some b =>
        simp [forward_preamble, infer_n_batch, check_quad_shape, if_pos hbad,
          exceptIsError]
    | none =>
        by_cases hC : Cndim = 4
        · subst hC
          simp [forward_preamble, infer_n_batch, check_quad_shape, if_pos hbad,
            exceptIsError]
        · simp [forward_preamble, infer_n_batch, if_neg hC, exceptIsError]

/-- C8 witness: both failure modes at concrete inputs — a module cost without
an explicit batch size, and a `QuadCost` whose `C` has rank 5. -/
theorem C8_preamble_errors_witness :
    (∀ m, CostRep.nonquad ≠ CostRep.quad 4 m) ∧
      exceptIsError (forward_preamble none CostRep.nonquad 7) = true ∧
      (bcastC 5 ≠ 4 ∨ bcastc 3 ≠ 3) ∧
      exceptIsError (forward_preamble (some 2) (CostRep.quad 5 3) 7) = true :=
  ⟨fun _ h => CostRep.noConfusion h,
    (C8_preamble_errors none CostRep.nonquad 7).1 rfl (fun _ h => CostRep.noConfusion h),
    Or.inl (by decide),
    (C8_preamble_errors (some 2) (CostRep.quad 5 3) 7).2 5 3 rfl (Or.inl (by decide))⟩

/-! ## Embedding of `util.eclamp` (claim C9)

The source clamps in place with two sequential masked assignments
(`x[x < lower] = lower`, then `x[x > upper] = upper`) and returns the mutated
tensor; mutation is modelled as a value transformation (the returned value is
the final value of `x` — the source's `return x`).  Scalar bounds broadcast to
constant tensors, so per-component bounds cover both cases. -/

/-- First pass of `util.eclamp`: `I = x < lower; x[I] = lower[I]`. -/
def eclamp_pass1 {k : ℕ} (x lower : Fin k → ℚ) : Fin k → ℚ :=
  fun j => if x j < lower j then lower j else x j

/-- Second pass of `util.eclamp`: `I = x > upper; x[I] = upper[I]`, applied to
the output of the first pass. -/
def eclamp_pass2 {k : ℕ} (x upper : Fin k → ℚ) : Fin k → ℚ :=
  fun j => if upper j < x j then upper j else x j

/-- Embeds `util.eclamp`: the two passes in source order. -/
def eclamp {k : ℕ} (x lower upper : Fin k → ℚ) : Fin k → ℚ :=
  eclamp_pass2 (eclamp_pass1 x lower) upper

/-- C9: for bounds with `lower <= upper`, every component of `util.eclamp`'s
result lies in `[lower, upper]`, and components already within the bounds are
returned unchanged. -/
theorem C9_eclamp_bounds {k : ℕ} (x lower upper : Fin k → ℚ)
    (hlu : ∀ j, lower j ≤ upper j) :
    (∀ j, lower j ≤ eclamp x lower upper j ∧ eclamp x lower upper j ≤ upper j) ∧
    (∀ j, lower j ≤ x j → x j ≤ upper j → eclamp x lower upper j = x j) := by
  constructor
  · intro j
    have h := hlu j
    rw [eclamp, eclamp_pass2, eclamp_pass1]
    split_ifs with h1 h2 h3 <;> constructor <;> linarith
  · intro j hl hu
    rw [eclamp, eclamp_pass2, eclamp_pass1]
    split_ifs with h1 h2 h3 <;> linarith

/-- C9 witness: clamping a concrete vector with one low, one in-range and one
high component into `[0, 1]`. -/
theorem C9_eclamp_bounds_witness :
    (∀ j : Fin 3, (![0, 0, 0] : Fin 3 → ℚ) j ≤ ![1, 1, 1] j) ∧
      ((∀ j, (![0, 0, 0] : Fin 3 → ℚ) j ≤ eclamp ![-1, 1/2, 7] ![0, 0, 0] ![1, 1, 1] j ∧
          eclamp ![-1, 1/2, 7] ![0, 0, 0] ![1, 1, 1] j ≤ ![1, 1, 1] j) ∧
        (∀ j, (![0, 0, 0] : Fin 3 → ℚ) j ≤ (![-1, 1/2, 7] : Fin 3 → ℚ) j →
          (![-1, 1/2, 7] : Fin 3 → ℚ) j ≤ ![1, 1, 1] j →
          eclamp ![-1, 1/2, 7] ![0, 0, 0] ![1, 1, 1] j = ![-1, 1/2, 7] j)) := by
  have hlu : ∀ j : Fin 3, (![0, 0, 0] : Fin 3 → ℚ) j ≤ ![1, 1, 1] j := by
    intro j
    fin_cases j <;> norm_num
  exact ⟨hlu, C9_eclamp_bounds ![-1, 1/2, 7] ![0, 0, 0] ![1, 1, 1] hlu⟩

/-! ## Embedding of the `MPC.__init__` assertions (claim C10) -/

/-- Embeds the two assertions of `MPC.__init__`:
`assert (u_lower is None) == (u_upper is None)` and
`assert max_linesearch_iter > 0`.  The constructor succeeds exactly when this
is `true`. -/
def mpc_init_ok (u_lower u_upper : Option ℚ) (max_linesearch_iter : ℤ) : Bool :=
  (u_lower.isNone == u_upper.isNone) && decide (0 < max_linesearch_iter)

/-- C10: the `MPC` constructor succeeds iff the control bounds are both absent
or both present and `max_linesearch_iter` is strictly positive; supplying
exactly one bound, or a non-positive `max_linesearch_iter`, fails an
assertion. -/
theorem C10_init_assertions (u_lower u_upper : Option ℚ)
    (max_linesearch_iter : ℤ) :
    mpc_init_ok u_lower u_upper max_linesearch_iter = true ↔
      (u_lower.isNone = u_upper.isNone ∧ 0 < max_linesearch_iter) := by
  simp [mpc_init_ok]

end MpcSpec
